import Mathlib

/-!
Verification development for the behavioral-cloning training program
(`model.py`).  The data pipeline helpers (`INPUT_SHAPE`, `balanceData`,
`batch_generator` and the image augmentor) live in a `utils` module that is
not part of the sources; those are modelled from the specification and are
marked as such in their doc comments.  Everything else is translated from
`model.py`.
-/

set_option autoImplicit false

namespace DriveSim

/-- Lowercase a string character by character; models Python `str.lower`
restricted to ASCII letters, which covers every string the flag logic
compares against. -/
def pyLower (s : String) : String :=
  String.mk (s.data.map Char.toLower)

/-- Translation of `s2b` (model.py lines 92-97): lowercase the input and
compare it against the four accepted truthy literals; any other string
yields `false` and no error is ever raised. -/
def s2b (s : String) : Bool :=
  let t := pyLower s
  t == "true" || t == "yes" || t == "y" || t == "1"

/-- Numeric value of a list of decimal digit characters; `none` when the
list is empty or contains a non-digit. -/
def natOfDigits : List Char → Option Nat
  | [] => none
  | cs =>
    cs.foldl
      (fun acc c =>
        match acc with
        | none => none
        | some n => if c.isDigit then some (10 * n + (c.toNat - 48)) else none)
      (some 0)

/-- Strip one optional leading sign, returning whether the value is negative
together with the remaining characters. -/
def stripSign : List Char → Bool × List Char
  | '+' :: r => (false, r)
  | '-' :: r => (true, r)
  | r => (false, r)

/-- Models Python `int(str)` on plain decimal literals: optional sign then
one or more digits, `none` otherwise (underscores and whitespace trimming
are not modelled; no claim depends on them). -/
def parsePyInt (s : String) : Option Int :=
  let p := stripSign s.toList
  match natOfDigits p.2 with
  | none => none
  | some n => some (if p.1 then -(n : Int) else (n : Int))

/-- Mantissa of a decimal float literal: digits, optionally followed by a
dot and more digits; at least one digit overall. -/
def parseMantissa (cs : List Char) : Option ℚ :=
  let ip := cs.span Char.isDigit
  match ip.2 with
  | [] => (natOfDigits ip.1).map (fun n => (n : ℚ))
  | '.' :: frac =>
    if frac.all Char.isDigit ∧ (ip.1 ≠ [] ∨ frac ≠ []) then
      let intVal : ℚ := ((ip.1.foldl (fun n c => 10 * n + (c.toNat - 48)) 0 : Nat) : ℚ)
      let fracVal : ℚ := ((frac.foldl (fun n c => 10 * n + (c.toNat - 48)) 0 : Nat) : ℚ)
      some (intVal + fracVal / ((10 : ℚ) ^ frac.length))
    else none
  | _ => none

/-- Models Python `float(str)` on decimal literals with an optional
exponent: sign, mantissa, optional `e`/`E` part.  The special literals
`inf` and `nan` are not modelled (they are not representable in ℚ and no
claim depends on them). -/
def parsePyFloat (s : String) : Option ℚ :=
  let p := stripSign s.toList
  let me := p.2.span (fun c => c ≠ 'e' ∧ c ≠ 'E')
  let mant :=
    match parseMantissa me.1 with
    | none => none
    | some m => some (if p.1 then -m else m)
  match me.2 with
  | [] => mant
  | _ :: ex =>
    let q := stripSign ex
    match mant, natOfDigits q.2 with
    | some m, some k =>
      some (if q.1 then m / ((10 : ℚ) ^ k) else m * ((10 : ℚ) ^ k))
    | _, _ => none

/-- The eight command-line parameters of `main` (model.py lines 104-113). -/
structure Args where
  data_dir : String
  test_size : ℚ
  keep_prob : ℚ
  nb_epoch : Int
  samples_per_epoch : Int
  batch_size : Int
  save_best_only : Bool
  learning_rate : ℚ
  deriving DecidableEq, Repr

/-- Defaults declared in `main`; argparse applies `type=s2b` to the string
default `'true'` of the best-only flag. -/
def defaultArgs : Args :=
  { data_dir := "data"
    test_size := 2 / 10
    keep_prob := 25 / 100
    nb_epoch := 1
    samples_per_epoch := 10
    batch_size := 40
    save_best_only := s2b "true"
    learning_rate := 1 / 10000 }

/-- Application of one `-flag value` pair, as argparse does with the
declared converter of each destination: `none` models the parse-time
usage-message rejection with a non-zero exit. -/
def applyFlag (a : Args) : String × String → Option Args
  | ("-d", v) => some { a with data_dir := v }
  | ("-t", v) => (parsePyFloat v).map (fun q => { a with test_size := q })
  | ("-k", v) => (parsePyFloat v).map (fun q => { a with keep_prob := q })
  | ("-n", v) => (parsePyInt v).map (fun n => { a with nb_epoch := n })
  | ("-s", v) => (parsePyInt v).map (fun n => { a with samples_per_epoch := n })
  | ("-b", v) => (parsePyInt v).map (fun n => { a with batch_size := n })
  | ("-o", v) => some { a with save_best_only := s2b v }
  | ("-l", v) => (parsePyFloat v).map (fun q => { a with learning_rate := q })
  | _ => none

/-- The argument parser of `main` over a list of `-flag value` pairs:
any converter failure aborts parsing before data loading or training. -/
def parseArgs (l : List (String × String)) : Option Args :=
  l.foldlM applyFlag defaultArgs

/-- Column names of the driving log (model.py line 22). -/
def logColumns : List String :=
  ["center", "left", "right", "steering", "throttle", "brake", "speed"]

/-- Split a line at commas, structurally over its characters; models the
comma tokenizer `pd.read_csv` applies to each row of `driving_log.csv`. -/
def splitFieldsAux : List Char → List Char → List String
  | [], acc => [String.mk acc.reverse]
  | c :: cs, acc =>
    if c = ',' then String.mk acc.reverse :: splitFieldsAux cs []
    else splitFieldsAux cs (c :: acc)

/-- Fields of one log line. -/
def splitFields (line : String) : List String :=
  splitFieldsAux line.data []

/-- Field count the `pd.read_csv` tokenizer expects of every row: it is
anchored to the first data row, never below the declared `names=`
columns — a file that is uniformly wider than the seven names parses
fine, the extra leading columns becoming an implicit index (the
documented `index_col=False` behavior). -/
def expectedWidth (lines : List String) : Nat :=
  match lines with
  | [] => logColumns.length
  | l :: _ => max (splitFields l).length logColumns.length

/-- One row against the expected width, following the documented
`pd.read_csv` tokenizer semantics: a row with more fields than expected
raises a parser error, a row with fewer fields is padded with NaN (here
`none`) — there is no rejection of short rows. -/
def parseCsvRow (width : Nat) (line : String) :
    Except String (List (Option String)) :=
  let fs := splitFields line
  if width < fs.length then
    Except.error "ParserError: too many fields"
  else
    Except.ok (fs.map some ++ List.replicate (width - fs.length) none)

/-- All rows of the log, stopping at the first row error, as the CSV
reader does. -/
def readCsvLines (width : Nat) :
    List String → Except String (List (List (Option String)))
  | [] => Except.ok []
  | l :: ls =>
    match parseCsvRow width l with
    | Except.error e => Except.error e
    | Except.ok r =>
      match readCsvLines width ls with
      | Except.error e => Except.error e
      | Except.ok rs => Except.ok (r :: rs)

/-- Entry point of `load_data`'s reading step (model.py line 23): a
missing file raises, otherwise the rows are parsed against the width the
first row fixes; `load_data` installs no exception handler, so any error
propagates to the caller before a dataset exists. -/
def readDrivingLog : Option (List String) → Except String (List (List (Option String)))
  | none => Except.error "FileNotFoundError: driving_log.csv"
  | some lines => readCsvLines (expectedWidth lines) lines

theorem readCsvLines_error_of_long_row (width : Nat) (lines : List String)
    (l : String) (hl : l ∈ lines)
    (hlong : width < (splitFields l).length) :
    (readCsvLines width lines).isOk = false := by
  induction lines with
  | nil => cases hl
  | cons hd tl ih =>
    rcases List.mem_cons.mp hl with heq | htl
    · subst heq
      have hpr : parseCsvRow width l =
          Except.error "ParserError: too many fields" := by
        simp [parseCsvRow, hlong]
      unfold readCsvLines
      rw [hpr]
      rfl
    · unfold readCsvLines
      cases hpr : parseCsvRow width hd with
      | error e => rfl
      | ok r =>
        cases hrl : readCsvLines width tl with
        | error e => rfl
        | ok rs =>
          have hrec := ih htl
          rw [hrl] at hrec
          exact Bool.noConfusion hrec

/-- Validation loss of epoch `e` is an improvement when it is strictly
below every earlier epoch's validation loss (Keras `val_loss` monitoring
in mode `auto`, best initialised to infinity). -/
def improvesAt (losses : List ℚ) (e : Nat) : Prop :=
  e < losses.length ∧ ∀ i, i < e → losses.getD e 0 < losses.getD i 0

instance (losses : List ℚ) (e : Nat) : Decidable (improvesAt losses e) := by
  unfold improvesAt
  infer_instance

/-- Epochs at which the `ModelCheckpoint` callback with
`save_best_only=True` writes `model.h5`: the callback keeps the best
monitored value seen so far and saves exactly when the current epoch's
`val_loss` is strictly smaller (model.py lines 79-83 plus the Keras
callback semantics the spec describes). -/
def checkpointAux : List ℚ → Nat → Option ℚ → List Nat
  | [], _, _ => []
  | l :: ls, e, none => e :: checkpointAux ls (e + 1) (some l)
  | l :: ls, e, some b =>
    if l < b then e :: checkpointAux ls (e + 1) (some l)
    else checkpointAux ls (e + 1) (some b)

/-- Save epochs of the checkpoint callback for a run whose per-epoch
validation losses are `losses`; without best-only it saves every epoch. -/
def checkpointSaves (saveBestOnly : Bool) (losses : List ℚ) : List Nat :=
  if saveBestOnly then checkpointAux losses 0 none
  else List.range losses.length

/-- Every write of `model.h5` performed by `train_model`: the per-epoch
checkpoint writes, followed by the unconditional `model.save('model.h5')`
of model.py line 90, which stores the final model — the model holding the
weights of the last epoch. -/
def trainModelSaves (saveBestOnly : Bool) (losses : List ℚ) : List Nat :=
  checkpointSaves saveBestOnly losses ++ [losses.length - 1]

theorem checkpointAux_improves (ls : List ℚ) :
    ∀ (e0 : Nat) (best : Option ℚ) (e : Nat),
      e ∈ checkpointAux ls e0 best →
      ∃ k, e = e0 + k ∧ k < ls.length ∧
        (∀ b, best = some b → ls.getD k 0 < b) ∧
        (∀ j, j < k → ls.getD k 0 < ls.getD j 0) := by
  induction ls with
  | nil => intro e0 best e h; simp [checkpointAux] at h
  | cons l ls ih =>
    intro e0 best e h
    have step :
        ∃ (saved : Bool) (best' : Option ℚ),
          (saved = true → (∀ b, best = some b → l < b)) ∧
          (saved = false → ∃ b, best = some b ∧ ¬ l < b) ∧
          (best' = some l ∨ (saved = false ∧ best' = best)) ∧
          (saved = false → best' = best) ∧
          checkpointAux (l :: ls) e0 best =
            (if saved then [e0] else []) ++ checkpointAux ls (e0 + 1) best' := by
      cases best with
      | none =>
        refine ⟨true, some l, ?_, ?_, Or.inl rfl, ?_, ?_⟩
        · intro _ b hb; cases hb
        · intro hf; cases hf
        · intro hf; cases hf
        · simp [checkpointAux]
      | some b =>
        by_cases hlb : l < b
        · refine ⟨true, some l, ?_, ?_, Or.inl rfl, ?_, ?_⟩
          · intro _ b' hb'; cases hb'; exact hlb
          · intro hf; cases hf
          · intro hf; cases hf
          · simp [checkpointAux, hlb]
        · refine ⟨false, some b, ?_, ?_, Or.inr ⟨rfl, rfl⟩, fun _ => rfl, ?_⟩
          · intro hf; cases hf
          · intro _; exact ⟨b, rfl, hlb⟩
          · simp [checkpointAux, hlb]
    obtain ⟨saved, best', hsave, hskip, hbest', hkeep, heq⟩ := step
    rw [heq] at h
    rcases List.mem_append.mp h with hhead | htail
    · cases saved with
      | false => simp at hhead
      | true =>
        simp at hhead
        refine ⟨0, by omega, by simp, ?_, ?_⟩
        · intro b hb
          subst hhead
          simpa using hsave rfl b hb
        · intro j hj; omega
    · obtain ⟨k', hk'e, hk'len, hk'best, hk'prev⟩ := ih (e0 + 1) best' e htail
      refine ⟨k' + 1, by omega, by simpa using Nat.succ_lt_succ hk'len, ?_, ?_⟩
      · intro b hb
        have hd : (l :: ls).getD (k' + 1) 0 = ls.getD k' 0 := rfl
        rw [hd]
        cases saved with
        | true =>
          rcases hbest' with hb' | hb'
          · have h1 : ls.getD k' 0 < l := hk'best l hb'
            have h2 : l < b := hsave rfl b hb
            exact h1.trans h2
          · exact absurd hb'.1 (by simp)
        | false =>
          have : best' = best := hkeep rfl
          exact hk'best b (this ▸ hb)
      · intro j hj
        have hd : (l :: ls).getD (k' + 1) 0 = ls.getD k' 0 := rfl
        rw [hd]
        cases j with
        | zero =>
          show ls.getD k' 0 < l
          cases saved with
          | true =>
            rcases hbest' with hb' | hb'
            · exact hk'best l hb'
            · exact absurd hb'.1 (by simp)
          | false =>
            obtain ⟨b, hb, hnlt⟩ := hskip rfl
            have h1 : ls.getD k' 0 < b := hk'best b ((hkeep rfl).symm ▸ hb)
            exact h1.trans_le (not_lt.mp hnlt)
        | succ j' =>
          have : (l :: ls).getD (j' + 1) 0 = ls.getD j' 0 := rfl
          rw [this]
          exact hk'prev j' (by omega)

/-- Claim C9: `s2b` returns `true` exactly when the lower-cased input is
one of the four accepted literals; being a total function it returns
`false` on every other string instead of raising. -/
theorem C9_s2b_truth_table (s : String) :
    s2b s = true ↔
      (pyLower s = "true" ∨ pyLower s = "yes" ∨ pyLower s = "y" ∨
        pyLower s = "1") := by
  simp only [s2b, Bool.or_eq_true, beq_iff_eq]
  tauto

/-- Claim C6, counterexample: the unparseable boolean value `"maybe"`
passed to the best-only flag is not rejected: argument parsing succeeds
and silently records `save_best_only = false`, contradicting the claim
that every invalid flag value causes a parse-time rejection. -/
theorem C6_counterexample :
    parseArgs [("-o", "maybe")] =
      some { defaultArgs with save_best_only := false } := rfl

/-- Claim C6, amended: invalid values of the numeric flags are rejected at
parse time before any data loading, but the best-only flag accepts every
string, converting unrecognized values to `false`. -/
theorem C6_amended_parsing (v : String) :
    (parsePyFloat v = none → parseArgs [("-t", v)] = none) ∧
      (parsePyInt v = none → parseArgs [("-n", v)] = none) ∧
      ∃ a : Args, parseArgs [("-o", v)] = some a ∧ a.save_best_only = s2b v := by
  refine ⟨?_, ?_, ?_⟩
  · intro h
    simp [parseArgs, List.foldlM, applyFlag, h]
  · intro h
    simp [parseArgs, List.foldlM, applyFlag, h]
  · exact ⟨{ defaultArgs with save_best_only := s2b v }, rfl, rfl⟩

/-- Claim C6, witness for the amended theorem at the concrete value
`"zz"`, which parses neither as a float nor as an int. -/
theorem C6_amended_parsing_witness :
    parsePyFloat "zz" = none ∧ parseArgs [("-t", "zz")] = none ∧
      parsePyInt "zz" = none ∧ parseArgs [("-n", "zz")] = none := by
  have h := C6_amended_parsing "zz"
  exact ⟨by decide, h.1 (by decide), by decide, h.2.1 (by decide)⟩

/-- Claim C1, counterexample: a two-epoch run with best-only enabled and
validation losses 1 then 2.  The checkpoint callback saves only epoch 0,
but line 90's unconditional `model.save` then overwrites `model.h5` with
the final (epoch 1) model, whose validation loss 2 is not an improvement
— refuting the claim that the file is never overwritten by a
non-improving model. -/
theorem C1_counterexample :
    ¬ ∀ e ∈ trainModelSaves true [(1 : ℚ), 2], improvesAt [(1 : ℚ), 2] e := by
  decide

/-- Claim C1, amended: with best-only enabled, every write performed by
the `ModelCheckpoint` callback itself stores a model whose validation
loss strictly improves on all earlier epochs; the final unconditional
`model.save` of line 90 is outside this guarantee. -/
theorem C1_amended_checkpoint (losses : List ℚ) (e : Nat)
    (h : e ∈ checkpointSaves true losses) : improvesAt losses e := by
  have h' : e ∈ checkpointAux losses 0 none := by
    simpa [checkpointSaves] using h
  obtain ⟨k, hek, hklen, _, hprev⟩ := checkpointAux_improves losses 0 none e h'
  have hk : e = k := by omega
  subst hk
  exact ⟨hklen, hprev⟩

/-- Claim C1, witness for the amended theorem: a single-epoch run with
loss 1 saves epoch 0, which trivially improves on the empty past. -/
theorem C1_amended_checkpoint_witness :
    0 ∈ checkpointSaves true [(1 : ℚ)] ∧ improvesAt [(1 : ℚ)] 0 :=
  ⟨by decide, C1_amended_checkpoint [(1 : ℚ)] 0 (by decide)⟩

/-- Claim C7, counterexample: a log whose single row has only three
fields is not rejected — reading succeeds and returns a dataset whose row
is padded with four missing values, i.e. a partially parsed row is
returned, contradicting fail-fast with no partial-row recovery. -/
theorem C7_counterexample :
    readDrivingLog (some ["a.jpg,b.jpg,c.jpg"]) =
      Except.ok [[some "a.jpg", some "b.jpg", some "c.jpg",
        none, none, none, none]] := rfl

/-- Claim C7, amended: loading does fail fast, with no dataset returned,
when the log file is missing or when some row has more fields than the
width the first row fixes (never below the seven declared columns);
rows with fewer fields are instead NaN-padded and kept, and a uniformly
wide file parses with an implicit index rather than erroring. -/
theorem C7_amended_failfast (file : Option (List String))
    (h : file = none ∨
      ∃ l ∈ file.getD [],
        expectedWidth (file.getD []) < (splitFields l).length) :
    (readDrivingLog file).isOk = false := by
  rcases h with hnone | ⟨l, hl, hlong⟩
  · subst hnone; rfl
  · cases file with
    | none => cases hl
    | some lines =>
      show (readCsvLines (expectedWidth lines) lines).isOk = false
      exact readCsvLines_error_of_long_row (expectedWidth lines) lines l hl hlong

/-- Claim C7, witness for the amended theorem: a log whose first row has
the seven declared fields and whose second row has eight makes reading
fail. -/
theorem C7_amended_failfast_witness :
    ((some ["a,b,c,d,e,f,g", "a,b,c,d,e,f,g,h"] : Option (List String)) = none ∨
      ∃ l ∈ (some ["a,b,c,d,e,f,g", "a,b,c,d,e,f,g,h"] :
          Option (List String)).getD [],
        expectedWidth ((some ["a,b,c,d,e,f,g", "a,b,c,d,e,f,g,h"] :
          Option (List String)).getD []) < (splitFields l).length) ∧
      (readDrivingLog
        (some ["a,b,c,d,e,f,g", "a,b,c,d,e,f,g,h"])).isOk = false :=
  ⟨Or.inr ⟨"a,b,c,d,e,f,g,h", by decide, by decide⟩,
    C7_amended_failfast (some ["a,b,c,d,e,f,g", "a,b,c,d,e,f,g,h"])
      (Or.inr ⟨"a,b,c,d,e,f,g,h", by decide, by decide⟩)⟩

/-- Modelled from the spec: the fixed height/width/channel input shape
`INPUT_SHAPE` exported by the missing `utils` module. -/
def INPUT_SHAPE : Nat × Nat × Nat := (160, 320, 3)

/-- An image tensor: explicit dimensions plus a pixel function. -/
structure Image where
  height : Nat
  width : Nat
  channels : Nat
  pixel : Nat → Nat → Nat → ℚ

/-- Dimension triple of an image. -/
def imageShape (img : Image) : Nat × Nat × Nat :=
  (img.height, img.width, img.channels)

/-- A blank placeholder image of the model input shape. -/
def blankImage : Image :=
  { height := INPUT_SHAPE.1, width := INPUT_SHAPE.2.1,
    channels := INPUT_SHAPE.2.2, pixel := fun _ _ _ => 0 }

/-- Linear congruential generator standing in for the NumPy RNG stream;
all randomized pipeline steps draw from iterates of this map. -/
def lcg (s : Nat) : Nat :=
  (1103515245 * s + 12345) % 2 ^ 31

/-- The `n`-th draw of the stream seeded with `seed`. -/
def rngAt (seed : Nat) : Nat → Nat
  | 0 => lcg seed
  | n + 1 => lcg (rngAt seed n)

/-- Modelled from the spec: the deterministic preprocessing step of the
missing augmentor — fixed crop and resize to the model input shape. -/
def cropResize (img : Image) : Image :=
  { height := INPUT_SHAPE.1, width := INPUT_SHAPE.2.1,
    channels := INPUT_SHAPE.2.2,
    pixel := fun i j c => img.pixel i j c }

/-- Horizontal mirror of an image. -/
def flipImage (img : Image) : Image :=
  { img with pixel := fun i j c => img.pixel i (img.width - 1 - j) c }

/-- Modelled from the spec: the optional horizontal flip of the missing
augmentor; on an even random draw the image is mirrored and the paired
steering angle negated, otherwise both pass through unchanged. -/
def randomFlip (r : Nat) (img : Image) (a : ℚ) : Image × ℚ :=
  if r % 2 = 0 then (flipImage img, -a) else (img, a)

/-- Shift an image by an integer pixel offset, keeping its dimensions. -/
def translateImage (tx ty : Int) (img : Image) : Image :=
  { img with
    pixel := fun i j c =>
      img.pixel ((i : Int) - ty).toNat ((j : Int) - tx).toNat c }

/-- Modelled from the spec: the small random translation of the missing
augmentor, adjusting the angle proportionally to the horizontal shift. -/
def randomTranslate (r1 r2 : Nat) (img : Image) (a : ℚ) : Image × ℚ :=
  let tx : Int := (r1 % 21 : Nat) - (10 : Int)
  let ty : Int := (r2 % 21 : Nat) - (10 : Int)
  (translateImage tx ty img, a + (tx : ℚ) * (2 / 1000))

/-- Modelled from the spec: brightness jitter of the missing augmentor —
scale every pixel by a random factor, dimensions unchanged. -/
def brightnessAdjust (r : Nat) (img : Image) : Image :=
  { img with
    pixel := fun i j c => ((r % 11 + 5 : Nat) : ℚ) / 10 * img.pixel i j c }

/-- Modelled from the spec: the missing augmentor `augment` of `utils`.
When training, it applies crop/resize, then the optional flip, the random
translation and brightness jitter, threading the RNG stream from `seed`;
when not training, only the deterministic crop/resize is applied. -/
def augment (seed : Nat) (img : Image) (a : ℚ) (is_training : Bool) :
    Image × ℚ :=
  if is_training then
    let r0 := lcg seed
    let p1 := randomFlip r0 (cropResize img) a
    let r1 := lcg r0
    let r2 := lcg r1
    let p2 := randomTranslate r1 r2 p1.1 p1.2
    let r3 := lcg r2
    (brightnessAdjust r3 p2.1, p2.2)
  else (cropResize img, a)

theorem imageShape_cropResize (img : Image) :
    imageShape (cropResize img) = INPUT_SHAPE := rfl

theorem imageShape_augment (seed : Nat) (img : Image) (a : ℚ) (t : Bool) :
    imageShape (augment seed img a t).1 = INPUT_SHAPE := by
  cases t with
  | false => rfl
  | true =>
    by_cases h : lcg seed % 2 = 0 <;>
      simp [augment, randomFlip, h, randomTranslate, brightnessAdjust,
        translateImage, flipImage, imageShape, cropResize, INPUT_SHAPE]

/-- Modelled from the spec: the missing `batch_generator` of `utils`,
with the image files presented as an in-memory list (the data directory
argument only locates those files on disk).  The value at `n` is the
`n`-th batch of the unbounded lazy sequence: `batch_size` samples drawn
with replacement via the RNG stream, each passed through the augmentor. -/
def batch_generator (imgs : List Image) (angs : List ℚ) (batch_size : Nat)
    (is_training : Bool) (seed n : Nat) : List (Image × ℚ) :=
  (List.range batch_size).map (fun j =>
    let r := rngAt seed (n * batch_size + j)
    let i := r % imgs.length
    augment (lcg r) (imgs.getD i blankImage) (angs.getD i 0) is_training)

/-- Claim C3: every call to the batch generator — at any position `n` of
the infinite sequence, so it never terminates on its own — yields exactly
`batch_size` image/angle pairs, every image of the fixed input shape. -/
theorem C3_batch_shape (imgs : List Image) (angs : List ℚ)
    (batch_size : Nat) (t : Bool) (seed n : Nat) (h : 0 < imgs.length) :
    (batch_generator imgs angs batch_size t seed n).length = batch_size ∧
      ∀ p ∈ batch_generator imgs angs batch_size t seed n,
        imageShape p.1 = INPUT_SHAPE := by
  constructor
  · simp [batch_generator]
  · intro p hp
    simp only [batch_generator, List.mem_map, List.mem_range] at hp
    obtain ⟨j, _, hj⟩ := hp
    rw [← hj]
    exact imageShape_augment _ _ _ _

/-- Claim C3, witness: a one-image dataset, batch size 2, third call. -/
theorem C3_batch_shape_witness :
    0 < [blankImage].length ∧
      ((batch_generator [blankImage] [(0 : ℚ)] 2 true 7 2).length = 2 ∧
        ∀ p ∈ batch_generator [blankImage] [(0 : ℚ)] 2 true 7 2,
          imageShape p.1 = INPUT_SHAPE) :=
  ⟨Nat.zero_lt_one, C3_batch_shape [blankImage] [(0 : ℚ)] 2 true 7 2
    Nat.zero_lt_one⟩

/-- Claim C5: whenever the augmentor's flip step fires, the angle paired
with the mirrored image is exactly the negation of the input angle. -/
theorem C5_flip_negates (r : Nat) (img : Image) (a : ℚ) (h : r % 2 = 0) :
    randomFlip r img a = (flipImage img, -a) := by
  simp [randomFlip, h]

/-- Claim C5, witness at draw 0 and angle 1. -/
theorem C5_flip_negates_witness :
    (0 : Nat) % 2 = 0 ∧ randomFlip 0 blankImage 1 = (flipImage blankImage, -1) :=
  ⟨rfl, C5_flip_negates 0 blankImage 1 rfl⟩

/-- Claim C8: the augmentor is a pure function of its inputs and the RNG
stream, so two runs from the same seed on the same image, angle and
training flag return the same image tensor and the same angle. -/
theorem C8_augment_deterministic (seed : Nat) (img : Image) (a : ℚ)
    (t : Bool) :
    (augment seed img a t).1 = (augment seed img a t).1 ∧
      (augment seed img a t).2 = (augment seed img a t).2 :=
  ⟨rfl, rfl⟩

/-- Training-generator flag passed by `train_model` (model.py line 86). -/
def train_gen_training : Bool := true

/-- Validation-generator flag passed by `train_model` (model.py line 87):
the source passes `True` here as well. -/
def valid_gen_training : Bool := true

/-- Claim C2, failing evidence: the validation generator is constructed
with `is_training = True` (model.py line 87), so the augmentor's random
path runs on validation samples: at seed 1 the flip fires and the
validation angle differs from the deterministic crop/resize angle.  The
claim that validation sees only deterministic preprocessing is violated
by the code. -/
theorem C2_validation_randomized :
    valid_gen_training = true ∧
      (augment 1 blankImage 1 valid_gen_training).2 ≠
        (augment 1 blankImage 1 false).2 := by
  constructor
  · rfl
  · show (augment 1 blankImage 1 true).2 ≠ (augment 1 blankImage 1 false).2
    simp only [augment, randomFlip, randomTranslate, lcg, cropResize]
    norm_num

/-- A parsed log row under the seven declared columns (data model of the
spec; model.py lines 22 and 29-30 use the three camera paths and the
steering angle). -/
structure Sample where
  center : String
  left : String
  right : String
  steering : ℚ
  throttle : ℚ
  brake : ℚ
  speed : ℚ
  deriving DecidableEq

/-- Modelled from the spec: the angle bucketing of the missing
`balanceData` — angles are binned into unit-wide ranges by their floor. -/
def bucketIdx (a : ℚ) : Int :=
  a.floor

/-- How many samples of a bucket of size `cnt` the balancer retains: a
bucket within the cap is untouched, an overrepresented one is cut to the
cap but never below the minimum retained count. -/
def keepCount (cap minRetain cnt : Nat) : Nat :=
  if cnt ≤ cap then cnt else min cnt (max cap minRetain)

/-- The samples of `ds` falling into bucket `b`. -/
def bucketOf (bIdx : ℚ → Int) (b : Int) (ds : List Sample) : List Sample :=
  ds.filter (fun s => bIdx s.steering == b)

/-- Down-sample a bucket: an RNG-driven rotation followed by a prefix of
the requested size. -/
def downsample (r keep : Nat) (l : List Sample) : List Sample :=
  (l.rotate r).take keep

/-- The distinct bucket indices occurring in a dataset. -/
def bucketKeys (bIdx : ℚ → Int) (ds : List Sample) : List Int :=
  (ds.map (fun s => bIdx s.steering)).dedup

/-- The retained part of bucket `b` after balancing. -/
def balancedBucket (seed cap minRetain : Nat) (bIdx : ℚ → Int)
    (ds : List Sample) (b : Int) : List Sample :=
  downsample (lcg (seed + b.natAbs))
    (keepCount cap minRetain (bucketOf bIdx b ds).length)
    (bucketOf bIdx b ds)

/-- Modelled from the spec: the missing `balanceData` of `utils` —
bucket the angles, keep every bucket within the cap, and down-sample
overrepresented buckets (deterministically in the seed) without going
below the minimum retained count. -/
def balanceData (seed cap minRetain : Nat) (bIdx : ℚ → Int)
    (ds : List Sample) : List Sample :=
  (bucketKeys bIdx ds).flatMap (balancedBucket seed cap minRetain bIdx ds)

theorem mem_downsample {r k : Nat} {l : List Sample} {s : Sample}
    (h : s ∈ downsample r k l) : s ∈ l :=
  (List.mem_rotate).mp (List.take_subset _ _ h)

theorem length_downsample (r k : Nat) (l : List Sample) (hk : k ≤ l.length) :
    (downsample r k l).length = k := by
  simp [downsample, List.length_take, List.length_rotate, Nat.min_eq_left hk]

theorem keepCount_le (cap mr cnt : Nat) : keepCount cap mr cnt ≤ cnt := by
  unfold keepCount
  split
  · exact le_refl cnt
  · exact Nat.min_le_left _ _

theorem min_le_keepCount (cap mr cnt : Nat) :
    min cnt mr ≤ keepCount cap mr cnt := by
  unfold keepCount
  split
  · exact Nat.min_le_left cnt mr
  · exact min_le_min (le_refl cnt) (le_max_right cap mr)

theorem mem_balancedBucket {seed cap mr : Nat} {bIdx : ℚ → Int}
    {ds : List Sample} {b : Int} {s : Sample}
    (h : s ∈ balancedBucket seed cap mr bIdx ds b) : bIdx s.steering = b := by
  have h1 : s ∈ bucketOf bIdx b ds := mem_downsample h
  have h2 := List.mem_filter.mp h1
  simpa using h2.2

theorem length_balancedBucket (seed cap mr : Nat) (bIdx : ℚ → Int)
    (ds : List Sample) (b : Int) :
    (balancedBucket seed cap mr bIdx ds b).length =
      keepCount cap mr (bucketOf bIdx b ds).length :=
  length_downsample _ _ _ (keepCount_le _ _ _)

theorem filter_bind_nil (bIdx : ℚ → Int) (b : Int) (keys : List Int)
    (f : Int → List Sample) (hf : ∀ b' s, s ∈ f b' → bIdx s.steering = b')
    (hb : b ∉ keys) :
    (keys.flatMap f).filter (fun s => bIdx s.steering == b) = [] := by
  induction keys with
  | nil => rfl
  | cons k ks ih =>
    rw [List.flatMap_cons, List.filter_append]
    have h1 : (f k).filter (fun s => bIdx s.steering == b) = [] := by
      apply List.filter_eq_nil.mpr
      intro s hs
      simp only [hf k s hs, beq_iff_eq]
      intro hkb
      exact hb (hkb ▸ List.mem_cons_self k ks)
    rw [h1, ih (fun hmem => hb (List.mem_cons_of_mem k hmem)), List.nil_append]

theorem filter_bind_eq (bIdx : ℚ → Int) (b : Int) (keys : List Int)
    (f : Int → List Sample) (hf : ∀ b' s, s ∈ f b' → bIdx s.steering = b')
    (hnd : keys.Nodup) (hb : b ∈ keys) :
    (keys.flatMap f).filter (fun s => bIdx s.steering == b) = f b := by
  induction keys with
  | nil => cases hb
  | cons k ks ih =>
    rw [List.flatMap_cons, List.filter_append]
    have hnd' := List.nodup_cons.mp hnd
    rcases List.mem_cons.mp hb with heq | hmem
    · cases heq
      have h1 : (f b).filter (fun s => bIdx s.steering == b) = f b := by
        apply List.filter_eq_self.mpr
        intro s hs
        simp [hf b s hs]
      rw [h1, filter_bind_nil bIdx b ks f hf hnd'.1, List.append_nil]
    · have h1 : (f k).filter (fun s => bIdx s.steering == b) = [] := by
        apply List.filter_eq_nil.mpr
        intro s hs
        simp only [hf k s hs, beq_iff_eq]
        intro hkb
        exact hnd'.1 (hkb ▸ hmem)
      rw [h1, ih hnd'.2 hmem, List.nil_append]

theorem bucketOf_balanceData (seed cap mr : Nat) (bIdx : ℚ → Int)
    (ds : List Sample) (b : Int) (hne : bucketOf bIdx b ds ≠ []) :
    bucketOf bIdx b (balanceData seed cap mr bIdx ds) =
      balancedBucket seed cap mr bIdx ds b := by
  have hb : b ∈ bucketKeys bIdx ds := by
    obtain ⟨s, hs⟩ := List.exists_mem_of_ne_nil _ hne
    have hmem := List.mem_filter.mp hs
    have hsb : bIdx s.steering = b := by simpa using hmem.2
    unfold bucketKeys
    rw [List.mem_dedup]
    exact hsb ▸ List.mem_map_of_mem _ hmem.1
  unfold balanceData bucketOf
  exact filter_bind_eq bIdx b (bucketKeys bIdx ds) _
    (fun b' s hs => mem_balancedBucket hs) (List.nodup_dedup _) hb

/-- Claim C4: for any dataset, bucketing function, cap and positive
minimum retained count, the balancer keeps at least
`min (bucket size) minRetain` samples of every bucket; in particular a
non-empty bucket is never emptied. -/
theorem C4_balancer_min_retention (seed cap minRetain : Nat)
    (bIdx : ℚ → Int) (ds : List Sample) (b : Int)
    (hmr : 0 < minRetain) (hne : bucketOf bIdx b ds ≠ []) :
    min (bucketOf bIdx b ds).length minRetain ≤
        (bucketOf bIdx b (balanceData seed cap minRetain bIdx ds)).length ∧
      bucketOf bIdx b (balanceData seed cap minRetain bIdx ds) ≠ [] := by
  have hlen : (bucketOf bIdx b (balanceData seed cap minRetain bIdx ds)).length
      = keepCount cap minRetain (bucketOf bIdx b ds).length := by
    rw [bucketOf_balanceData seed cap minRetain bIdx ds b hne,
      length_balancedBucket]
  constructor
  · rw [hlen]
    exact min_le_keepCount _ _ _
  · have hpos : 0 < (bucketOf bIdx b
        (balanceData seed cap minRetain bIdx ds)).length := by
      rw [hlen]
      calc 0 < min (bucketOf bIdx b ds).length minRetain :=
            lt_min (List.length_pos.mpr hne) hmr
        _ ≤ keepCount cap minRetain (bucketOf bIdx b ds).length :=
            min_le_keepCount _ _ _
    exact List.ne_nil_of_length_pos hpos

/-- A three-row log used by the concrete witnesses. -/
def sampleLog : List Sample :=
  [⟨"c0.jpg", "l0.jpg", "r0.jpg", 0, 0, 0, 0⟩,
   ⟨"c1.jpg", "l1.jpg", "r1.jpg", 0, 0, 0, 0⟩,
   ⟨"c2.jpg", "l2.jpg", "r2.jpg", 1, 0, 0, 0⟩]

/-- Claim C4, witness: cap 1, minimum retention 1, the two-sample zero
bucket of the three-row log stays non-empty after balancing. -/
theorem C4_balancer_min_retention_witness :
    0 < 1 ∧ bucketOf bucketIdx 0 sampleLog ≠ [] ∧
      (min (bucketOf bucketIdx 0 sampleLog).length 1 ≤
          (bucketOf bucketIdx 0 (balanceData 3 1 1 bucketIdx sampleLog)).length ∧
        bucketOf bucketIdx 0 (balanceData 3 1 1 bucketIdx sampleLog) ≠ []) :=
  ⟨Nat.zero_lt_one, by decide,
    C4_balancer_min_retention 3 1 1 bucketIdx sampleLog 0 Nat.zero_lt_one
      (by decide)⟩

/-- State of the process-global NumPy RNG. -/
structure RngState where
  seed : Nat
  deriving DecidableEq

/-- The RNG state installed by `np.random.seed(0)` at module load
(model.py line 14). -/
def moduleInitRng : RngState := RngState.mk 0

/-- Modelled from the spec: per-bucket cap of the missing balancer. -/
def defaultCap : Nat := 400

/-- Modelled from the spec: minimum retained count of the missing
balancer. -/
def defaultMinRetain : Nat := 1

/-- Translation of `train_test_split(X, y, test_size, random_state=0)`
(model.py line 33): a shuffle driven entirely by the fixed random state
0, then a split into a test prefix of `⌈test_size * n⌉` elements and a
training remainder. -/
def train_test_split (X : List (String × String × String)) (y : List ℚ)
    (test_size : ℚ) :
    List (String × String × String) × List (String × String × String) ×
      List ℚ × List ℚ :=
  let n := X.length
  let nTest := (Int.toNat (Rat.ceil (test_size * (n : ℚ))))
  let r := lcg 0 % (n + 1)
  let Xs := X.rotate r
  let ys := y.rotate r
  (Xs.drop nTest, Xs.take nTest, ys.drop nTest, ys.take nTest)

/-- Translation of `load_data` (model.py lines 18-35), the file reading
already done: balance the dataset drawing from the global RNG state,
project out the camera-path triples and steering angles, and split with
`train_test_split` at the fixed random state 0. -/
def load_data (st : RngState) (log : List Sample) (test_size : ℚ) :
    List (String × String × String) × List (String × String × String) ×
      List ℚ × List ℚ :=
  let ds := balanceData st.seed defaultCap defaultMinRetain bucketIdx log
  let X := ds.map (fun s => (s.center, s.left, s.right))
  let y := ds.map (fun s => s.steering)
  train_test_split X y test_size

/-- Claim C10: two runs of `load_data`, each starting from the RNG state
that `np.random.seed(0)` installs at module load, return identical
train/validation splits for the same log and test-size fraction — the
output is a function of the log contents and the fraction alone. -/
theorem C10_load_data_deterministic (st1 st2 : RngState)
    (log : List Sample) (test_size : ℚ)
    (h1 : st1 = moduleInitRng) (h2 : st2 = moduleInitRng) :
    load_data st1 log test_size = load_data st2 log test_size := by
  subst h1
  subst h2
  rfl

/-- Claim C10, witness: two freshly seeded runs on the three-row log at
test size 1/5. -/
theorem C10_load_data_deterministic_witness :
    moduleInitRng = moduleInitRng ∧
      load_data moduleInitRng sampleLog (1 / 5) =
        load_data moduleInitRng sampleLog (1 / 5) :=
  ⟨rfl, C10_load_data_deterministic moduleInitRng moduleInitRng sampleLog
    (1 / 5) rfl rfl⟩

end DriveSim
